import Mathlib

/-!
Verification development for `convert_journal.py`, a post-processor for an
exported journal archive.  The script's pure logic is shallowly embedded:
HTML pages are represented by the data the script reads from them (the list
of `img` `src` attributes, presence of a `body` element), the resources
directory by a lookup function from file name to sidecar-file state, and the
generated Leaflet markup by the strings the script interpolates.  Numbers
taken from sidecar JSON (`latitude`, `longitude`) appear in the script only
as interpolated text, so they are carried as their textual form.
-/

namespace ConvertJournal

/-- One visit record of a sidecar's `visits` list.  `placeName`/`city` are
optional (the script reads them with `v.get(key, "")`); the coordinates are
kept as the text the f-strings interpolate. -/
structure Visit where
  latitude : String
  longitude : String
  placeName : Option String := none
  city : Option String := none
deriving Repr, DecidableEq

/-- State of a sidecar JSON file in the resources directory, as the script
distinguishes it: missing (`json_path.exists()` false), present but failing
`json.loads` (the caught exception's message kept), or parsed, in which case
the list is the value of `data.get("visits", [])`. -/
inductive SidecarFile where
  | absent
  | malformed (msg : String)
  | parsed (visits : List Visit)
deriving Repr, DecidableEq

/-- The resources directory, as a map from file name to sidecar state. -/
abbrev Resources := String → SidecarFile

/-- Python `str.lower()`, character-wise (the script only compares ASCII
extensions, where `Char.toLower` agrees with Python). -/
def pyLower (s : String) : String := String.mk (s.data.map Char.toLower)

/-- Python `s.endswith(suffix)`. -/
def strEndsWith (s suffix : String) : Bool := suffix.data.isSuffixOf s.data

/-- Python `s[:-(n)]` for `n ≤ len(s)`: all but the last `n` characters. -/
def strDropRight (s : String) (n : Nat) : String :=
  String.mk (s.data.take (s.data.length - n))

/-- Python `s.split(sep)` for a one-character separator, on character
lists. -/
def splitOnCharAux (sep : Char) : List Char → List (List Char)
  | [] => [[]]
  | c :: rest =>
    if c = sep then [] :: splitOnCharAux sep rest
    else
      match splitOnCharAux sep rest with
      | [] => [[c]]
      | h :: t => (c :: h) :: t

/-- Python `s.split(sep)` for a one-character separator. -/
def splitOnChar (sep : Char) (s : String) : List String :=
  (splitOnCharAux sep s.data).map String.mk

/-- Python `src.lower().endswith(".heic")` (line 106). -/
def isHeicSrc (src : String) : Bool := strEndsWith (pyLower src) ".heic"

/-- Python `src.lower().endswith(".png")` (line 292). -/
def isPngSrc (src : String) : Bool := strEndsWith (pyLower src) ".png"

/-- Python `Path(src).name`: the final path component (text after the last
slash).  A `src` handled by the script's suffix checks never ends in `/`. -/
def basenameOf (s : String) : String := (splitOnChar '/' s).getLastD s

/-- Python `str.replace(old, new)` on character lists, fuelled so the
recursion is structural: every non-overlapping occurrence of `pat`, scanned
left to right, is replaced by `rep`.  Each step consumes at least one
character, so fuel `l.length` never runs out.  (The script only calls this
with the non-empty patterns ".heic" and ".png".) -/
def listReplaceGo (pat rep : List Char) : Nat → List Char → List Char
  | _, [] => []
  | 0, l => l
  | fuel + 1, c :: rest =>
    if pat.isPrefixOf (c :: rest) then
      rep ++ listReplaceGo pat rep fuel (rest.drop (pat.length - 1))
    else
      c :: listReplaceGo pat rep fuel rest

/-- Python `s.replace(pat, rep)` on strings. -/
def pyReplace (s pat rep : String) : String :=
  String.mk (listReplaceGo pat.data rep.data s.data.length s.data)

/-- The name the script looks up for an entry image (lines 113-114):
`Path(src).name.replace(".heic", ".json")`. -/
def jsonNameOf (src : String) : String :=
  pyReplace (basenameOf src) ".heic" ".json"

/-- Modelled from the spec: "look up a sidecar metadata file of the same
basename" - the image's basename with its (5-character) extension replaced
by `.json`.  Stated for comparison with `jsonNameOf`, which is what the code
computes. -/
def specSidecarName (src : String) : String :=
  strDropRight (basenameOf src) 5 ++ ".json"

/-- Python `popup.replace('"', "'")`: with a single-character pattern this is
the character-wise substitution of every double quote by a single quote. -/
def replaceQuote (s : String) : String :=
  String.mk (s.data.map fun c => if c = '"' then '\'' else c)

/-- The per-entry popup text (lines 137-139):
`f"<b>{name}</b><br><i>{city}</i>".replace('"', "'")` with
`name = v.get("placeName", "")`, `city = v.get("city", "")`. -/
def entryPopup (v : Visit) : String :=
  replaceQuote ("<b>" ++ v.placeName.getD "" ++ "</b><br><i>" ++ v.city.getD "" ++ "</i>")

/-- One per-entry marker statement (lines 140-142). -/
def markerLine (v : Visit) : String :=
  "L.marker([" ++ v.latitude ++ "," ++ v.longitude ++ "]).addTo(map).bindPopup(\""
    ++ entryPopup v ++ "\");"

/-- One per-entry bounds element (line 143): `f"[{lat},{lon}]"`. -/
def boundLine (v : Visit) : String :=
  "[" ++ v.latitude ++ "," ++ v.longitude ++ "]"

/-- The loop of lines 134-143: `markers_js` and `bounds_js` built by
appending one element per visit, in accumulation order. -/
def entryMapLists (vs : List Visit) : List String × List String :=
  vs.foldl (fun acc v => (acc.1 ++ [markerLine v], acc.2 ++ [boundLine v])) ([], [])

/-- The fixed text of the per-entry `map_html` f-string before the bounds
statement (lines 145-154).  Literal braces of the generated JavaScript are
written as character escapes. -/
def entryMapHtmlPre (mapId : String) : String :=
  "\n<div id=\"" ++ mapId ++ "\" style=\"height: 400px; margin: 2em 0;\"></div>\n"
    ++ "<link href=\"https://unpkg.com/leaflet@1.9.4/dist/leaflet.css\" rel=\"stylesheet\"/>\n"
    ++ "<script src=\"https://unpkg.com/leaflet@1.9.4/dist/leaflet.js\"></script>\n"
    ++ "<script>\nvar map = L.map('" ++ mapId ++ "');\n"
    ++ "L.tileLayer('https://\x7bs\x7d.tile.openstreetmap.org/\x7bz\x7d/\x7bx\x7d/\x7by\x7d.png', \x7b\n"
    ++ "    maxZoom: 19,\n    attribution: '&copy; OpenStreetMap contributors'\n\x7d).addTo(map);\n\n"

/-- The per-entry `map_html` f-string (lines 145-161): the fixed head, then
the bounds statement over `bounds_js`, the `fitBounds` call, and the joined
`markers_js`. -/
def entryMapHtml (mapId : String) (vs : List Visit) : String :=
  entryMapHtmlPre mapId
    ++ ("var bounds = L.latLngBounds(["
        ++ String.intercalate "," (entryMapLists vs).2
        ++ "]);\nmap.fitBounds(bounds);")
    ++ ("\n\n" ++ String.join (entryMapLists vs).1 ++ "\n</script>\n")

/-- The warning printed for an unparseable sidecar (line 124):
`f"  ⚠️ Failed to read {json_name}: {e}"`. -/
def warnEntry (jsonName msg : String) : String :=
  "  ⚠️ Failed to read " ++ jsonName ++ ": " ++ msg

/-- Loop state of the image loop of `process_entries` (lines 103-124): the
rewritten `src` attributes in document order, the accumulated visits, and
the warnings printed so far. -/
structure SState where
  newSrcs : List String
  visits : List Visit
  logs : List String
deriving Repr, DecidableEq

/-- One iteration of the image loop (lines 103-124): a non-`.heic` image is
skipped, a `.heic` image has its src rewritten to `.png` and its sidecar
looked up; a missing sidecar contributes nothing, an unparseable one is
logged, a parsed one extends the visit list. -/
def stepImg (res : Resources) (s : SState) (src : String) : SState :=
  if isHeicSrc src then
    let newSrc := strDropRight src 5 ++ ".png"
    match res (jsonNameOf src) with
    | .absent => ⟨s.newSrcs ++ [newSrc], s.visits, s.logs⟩
    | .malformed msg =>
        ⟨s.newSrcs ++ [newSrc], s.visits, s.logs ++ [warnEntry (jsonNameOf src) msg]⟩
    | .parsed vs => ⟨s.newSrcs ++ [newSrc], s.visits ++ vs, s.logs⟩
  else
    ⟨s.newSrcs ++ [src], s.visits, s.logs⟩

/-- The whole image loop over a page's images in document order. -/
def processImgs (res : Resources) (srcs : List String) : SState :=
  srcs.foldl (stepImg res) ⟨[], [], []⟩

/-- The rewrite applied to a single `src` (lines 106-110): the claim-side
description of what one loop iteration does to the attribute. -/
def rewriteSrc (src : String) : String :=
  if isHeicSrc src then strDropRight src 5 ++ ".png" else src

/-- Visits one image contributes (lines 112-124), claim-side form. -/
def imgVisits (res : Resources) (src : String) : List Visit :=
  if isHeicSrc src then
    match res (jsonNameOf src) with
    | .parsed vs => vs
    | _ => []
  else []

/-- Warnings one image contributes (lines 117-124), claim-side form. -/
def imgLog (res : Resources) (src : String) : List String :=
  if isHeicSrc src then
    match res (jsonNameOf src) with
    | .malformed msg => [warnEntry (jsonNameOf src) msg]
    | _ => []
  else []

/-- Outcome of `process_entries` on one page that reached the final
`entry_file.write_text` (line 242). -/
structure EntryResult where
  newSrcs : List String
  visits : List Visit
  appendedMap : Option String
  logs : List String
  written : Bool
deriving Repr, DecidableEq

/-- `process_entries` on one page.  `stem` is the entry file's stem, `hasBody`
whether the parsed document has a `body` element, `srcs` the `src` attributes
of its `img` elements in document order.  The map block is built and appended
only when visits were accumulated (lines 129, 162-163); a page without a body
raises at line 223 (`soup.body.children` on `None`) before being written. -/
def processEntry (res : Resources) (stem : String) (hasBody : Bool)
    (srcs : List String) : Except String EntryResult :=
  let st := processImgs res srcs
  if hasBody then
    .ok { newSrcs := st.newSrcs
          visits := st.visits
          appendedMap :=
            if st.visits.isEmpty then none
            else some (entryMapHtml ("map_" ++ stem) st.visits)
          logs := st.logs
          written := true }
  else
    .error "AttributeError: NoneType object has no attribute children (line 223)"

/-- The fixed marker palette of `update_index_map_clickable` (lines 257-273). -/
def colors : List String :=
  ["red", "blue", "green", "orange", "purple", "darkred", "cadetblue",
   "darkgreen", "darkblue", "magenta", "lime", "orangered", "lightgray",
   "beige", "black"]

/-- Python `entry_file.stem.split("_")[0]` (line 280): text before the first
underscore of the stem, the whole stem when it has none. -/
def datePrefix (stem : String) : String := (splitOnChar '_' stem).headD stem

/-- The name the index pass looks up for an image (line 294):
`Path(src).name.replace(".png", ".json")`. -/
def indexJsonNameOf (src : String) : String :=
  pyReplace (basenameOf src) ".png" ".json"

/-- A visit tagged by the index pass (lines 299-302) with its entry's day
color (`visit["_color"]`) and date string (`visit["_date"]`). -/
structure TaggedVisit where
  visit : Visit
  color : String
  date : String
deriving Repr, DecidableEq

/-- The index popup text (lines 316-319), the same formula as the per-entry
one: `f"<b>{name}</b><br><i>{city}</i>".replace('"', "'")`. -/
def indexPopup (tv : TaggedVisit) : String :=
  replaceQuote ("<b>" ++ tv.visit.placeName.getD "" ++ "</b><br><i>"
    ++ tv.visit.city.getD "" ++ "</i>")

/-- One index marker statement (lines 321-325).  The tagged visit always
carries `_color`, so `v.get("_color", "blue")` is its color. -/
def indexMarkerLine (tv : TaggedVisit) : String :=
  "var marker = L.circleMarker([" ++ tv.visit.latitude ++ "," ++ tv.visit.longitude
    ++ "], \x7bcolor:'" ++ tv.color ++ "', radius:8\x7d);\n"
    ++ "marker.addTo(map).bindPopup(\"" ++ indexPopup tv ++ "\");\n"
    ++ "marker._day_color = \"" ++ tv.color ++ "\";\nmarkers.push(marker);"

/-- One index bounds element (line 327): `f"[{lat}, {lon}]"`. -/
def indexBoundLine (tv : TaggedVisit) : String :=
  "[" ++ tv.visit.latitude ++ ", " ++ tv.visit.longitude ++ "]"

/-- One iteration of the index pass's image loop (lines 290-304): only
`.png` references are considered, an existing and parsing sidecar's visits
are tagged and appended, a missing or unparseable one contributes nothing. -/
def indexImgStep (res : Resources) (color date : String)
    (acc : List TaggedVisit) (src : String) : List TaggedVisit :=
  if isPngSrc src then
    match res (indexJsonNameOf src) with
    | .parsed vs => acc ++ vs.map fun v => ⟨v, color, date⟩
    | _ => acc
  else acc

/-- State of the index pass's entry loop (lines 276-304): the day-to-color
dictionary in insertion order, the list of first-seen dates, and all tagged
visits accumulated so far. -/
structure IState where
  dateToColor : List (String × String)
  dateList : List String
  allVisits : List TaggedVisit

/-- One iteration of the index pass's entry loop (lines 279-304): a
first-seen date prefix draws `colors[len(date_to_color) % len(colors)]`, a
seen one reuses its color; the entry's images are then scanned. -/
def indexStep (res : Resources) (s : IState) (entry : String × List String) : IState :=
  let date := datePrefix entry.1
  let p :=
    match s.dateToColor.lookup date with
    | some _ => (s.dateToColor, s.dateList)
    | none =>
        (s.dateToColor
           ++ [(date, colors.getD (s.dateToColor.length % colors.length) "red")],
         s.dateList ++ [date])
  let color := (p.1.lookup date).getD "red"
  { dateToColor := p.1
    dateList := p.2
    allVisits := entry.2.foldl (indexImgStep res color date) s.allVisits }

/-- The whole entry loop of `update_index_map_clickable` over the entries in
traversal order (`sorted(ENTRIES_DIR.glob("*.html"))`); an entry is its
filename stem paired with its pages' `img` `src` attributes. -/
def indexRun (res : Resources) (entries : List (String × List String)) : IState :=
  entries.foldl (indexStep res) ⟨[], [], []⟩

/-- What the index pass appends when it runs to completion: the marker and
bounds lists and the legend's dates. -/
structure IndexOut where
  markerLines : List String
  boundLines : List String
  legendDates : List String
deriving Repr, DecidableEq

/-- The loop of lines 313-327 building `markers_js` and `bounds_js`. -/
def indexMapLists (tvs : List TaggedVisit) : List String × List String :=
  tvs.foldl (fun acc tv => (acc.1 ++ [indexMarkerLine tv], acc.2 ++ [indexBoundLine tv])) ([], [])

/-- `update_index_map_clickable` after the entry loop (lines 306-387): when
no visits were collected it logs and returns without touching `index.html`
(`none`); otherwise the combined map block is synthesized and appended. -/
def updateIndexResult (res : Resources) (entries : List (String × List String)) :
    Option IndexOut :=
  let st := indexRun res entries
  if st.allVisits.isEmpty then none
  else
    some { markerLines := (indexMapLists st.allVisits).1
           boundLines := (indexMapLists st.allVisits).2
           legendDates := st.dateList }

/-- The palette entry drawn for the i-th distinct date (analysis form of
`colors[i % len(colors)]`). -/
def palette (i : Nat) : String := colors.getD (i % colors.length) "red"

/-- The association list `date_to_color` holds after its first `n` inserts,
numbered from `i`: analysis-side canonical form. -/
def mkAssocFrom (i : Nat) : List String → List (String × String)
  | [] => []
  | d :: rest => (d, palette i) :: mkAssocFrom (i + 1) rest

/-- Distinct elements of a list in first-seen order: the claim-side notion
of "the Nth distinct date prefix". -/
def firstSeen (l : List String) : List String :=
  l.foldl (fun acc d => if acc.contains d then acc else acc ++ [d]) []

/-- One circle marker of the combined map, as the generated script holds it:
its coordinates (textual) and its `_day_color` tag (lines 322-325). -/
structure Marker where
  lat : String
  lon : String
  dayColor : String
deriving Repr, DecidableEq

/-- A `fitBounds` call of the generated script: the initial
`map.fitBounds(bounds_all)` over the full coordinate list (line 352), or the
`map.fitBounds(L.featureGroup(visibleMarkers).getBounds().pad(0.1))` issued
by `toggleMarkers` (lines 379-380), padded by ratio 0.1. -/
inductive FitCall where
  | initialFit (coords : List (String × String))
  | paddedFit (coords : List (String × String))
deriving Repr, DecidableEq

/-- Client-side state of the generated combined-map script: the marker array,
the markers currently added to the map, `activeColor`, and the last
`fitBounds` call issued. -/
structure MapState where
  markers : List Marker
  visible : List Marker
  activeColor : Option String
  lastFit : FitCall
deriving Repr, DecidableEq

/-- The coordinates of a marker list. -/
def coordsOf (ms : List Marker) : List (String × String) :=
  ms.map fun m => (m.lat, m.lon)

/-- The script's state after loading (lines 350-354): all markers added,
`activeColor = null`, the view fitted to `bounds_all`. -/
def initMapState (ms : List Marker) : MapState :=
  { markers := ms, visible := ms, activeColor := none
    lastFit := .initialFit (coordsOf ms) }

/-- The generated `toggleMarkers(color)` function (lines 357-382): clicking
the active color re-adds every marker and clears `activeColor`; clicking
another color keeps exactly the markers whose `_day_color` matches and
removes the rest; afterwards, when any marker is visible, the view is fitted
to the visible markers' bounds padded by 0.1. -/
def toggleMarkers (c : String) (s : MapState) : MapState :=
  let vis :=
    if s.activeColor = some c then s.markers
    else s.markers.filter fun m => m.dayColor == c
  let ac : Option String := if s.activeColor = some c then none else some c
  let fit := if vis.isEmpty then s.lastFit else FitCall.paddedFit (coordsOf vis)
  { s with visible := vis, activeColor := ac, lastFit := fit }

/-- The parts of an HTML document the styling passes touch: how many
`meta[name=viewport]` elements and appended style blocks it holds. -/
structure HtmlDoc where
  viewportCount : Nat
  styleCount : Nat
deriving Repr, DecidableEq

/-- `add_responsive_viewport` (lines 516-524): the meta tag is inserted only
when no `meta` with name `viewport` is present. -/
def addResponsiveViewport (d : HtmlDoc) : HtmlDoc :=
  if d.viewportCount = 0 then { d with viewportCount := d.viewportCount + 1 } else d

/-- `beautify_entries` on one page (lines 527-590): the conditional viewport
insertion, then an unconditional style append. -/
def beautifyEntriesDoc (d : HtmlDoc) : HtmlDoc :=
  let d1 := addResponsiveViewport d
  { d1 with styleCount := d1.styleCount + 1 }

/-- `beautify_index_html` (lines 391-490) restricted to the same two
effects: viewport meta inserted only when absent (lines 399-405), style
block appended unconditionally (line 474). -/
def beautifyIndexDoc (d : HtmlDoc) : HtmlDoc :=
  let d1 :=
    if d.viewportCount = 0 then { d with viewportCount := d.viewportCount + 1 } else d
  { d1 with styleCount := d1.styleCount + 1 }

/-- A run of one of the two styling passes over a document. -/
inductive BeautifyOp where
  | indexPass
  | entriesPass
deriving Repr, DecidableEq

/-- Apply one styling pass. -/
def runBeautify (d : HtmlDoc) : BeautifyOp → HtmlDoc
  | .indexPass => beautifyIndexDoc d
  | .entriesPass => beautifyEntriesDoc d

/-- The resources directory as a file store for the transcoding stage:
path to file content (`none` = file does not exist).  Content is abstract. -/
abbrev FS := String → Option String

/-- Python `heic_file.with_suffix(".png")` for a name matched by
`glob("*.heic")`: the 5-character `.heic` suffix replaced by `.png`. -/
def pngNameOf (heicName : String) : String := strDropRight heicName 5 ++ ".png"

/-- One iteration of `convert_heic_to_png` (lines 37-45): when the same-stem
PNG exists the file is skipped outright; otherwise the decoded image is
saved at the PNG path.  `conv` abstracts the HEIC-to-PNG transcoding of the
imaging library. -/
def convertStep (conv : String → String) (fs : FS) (heicName : String) : FS :=
  if (fs (pngNameOf heicName)).isSome then fs
  else fun p => if p = pngNameOf heicName then (fs heicName).map conv else fs p

/-- The whole transcoding stage over the globbed `.heic` files. -/
def convertRun (conv : String → String) (fs : FS) (heics : List String) : FS :=
  heics.foldl (convertStep conv) fs

/-- A concrete visit used by witnesses. -/
def vCafe : Visit :=
  { latitude := "10", longitude := "20", placeName := some "Cafe", city := some "Rome" }

/-- Resources with one parsed sidecar `a.json`, everything else absent. -/
def resA : Resources := fun n => if n = "a.json" then .parsed [vCafe] else .absent

/-- Resources with a malformed `m.json` next to the parsed `a.json`. -/
def resMal : Resources := fun n =>
  if n = "m.json" then .malformed "boom"
  else if n = "a.json" then .parsed [vCafe] else .absent

/-- Resources with every sidecar absent. -/
def resNone : Resources := fun _ => .absent

/-- `res` with the file named `n` removed: the comparison point for "a
malformed sidecar contributes zero visit records". -/
def resAbsentAt (res : Resources) (n : String) : Resources :=
  fun m => if m = n then .absent else res m

/-- The result `process_entries` produces for a one-image page referencing
`a.heic` next to the parsed sidecar `a.json` (used by witnesses). -/
def entryResA : EntryResult :=
  { newSrcs := ["a.png"], visits := [vCafe]
    appendedMap := some (entryMapHtml "map_e" [vCafe]), logs := [], written := true }

/-- A store holding a source image `a.heic` and its already-present
counterpart `a.png` (used by witnesses). -/
def fsW : FS := fun p =>
  if p = "a.heic" then some "HEICDATA"
  else if p = "a.png" then some "PNGDATA" else none

/-- Two red-tagged markers at distinct coordinates (used by the combined-map
counterexample). -/
def mRed1 : Marker := { lat := "10", lon := "20", dayColor := "red" }

/-- Second red-tagged marker. -/
def mRed2 : Marker := { lat := "30", lon := "40", dayColor := "red" }

/-- One image-loop iteration appends exactly its own rewritten src, its own
visits and its own warnings to the loop state. -/
theorem stepImg_eq (res : Resources) (s : SState) (src : String) :
    stepImg res s src =
      ⟨s.newSrcs ++ [rewriteSrc src], s.visits ++ imgVisits res src,
        s.logs ++ imgLog res src⟩ := by
  simp only [stepImg, rewriteSrc, imgVisits, imgLog]
  by_cases h : isHeicSrc src
  · simp only [h, if_true]
    cases hr : res (jsonNameOf src) <;> simp
  · simp [h]

/-- The image loop from an arbitrary starting state. -/
theorem foldl_stepImg (res : Resources) (srcs : List String) (s : SState) :
    srcs.foldl (stepImg res) s =
      ⟨s.newSrcs ++ srcs.map rewriteSrc,
        s.visits ++ (srcs.map (imgVisits res)).flatten,
        s.logs ++ (srcs.map (imgLog res)).flatten⟩ := by
  induction srcs generalizing s with
  | nil => simp
  | cons a t ih =>
      simp only [List.foldl_cons, List.map_cons, List.flatten_cons]
      rw [stepImg_eq, ih]
      simp

/-- The rewritten srcs of a page, image by image. -/
theorem processImgs_newSrcs (res : Resources) (srcs : List String) :
    (processImgs res srcs).newSrcs = srcs.map rewriteSrc := by
  simp [processImgs, foldl_stepImg]

/-- The accumulated visits of a page, image by image. -/
theorem processImgs_visits (res : Resources) (srcs : List String) :
    (processImgs res srcs).visits = (srcs.map (imgVisits res)).flatten := by
  simp [processImgs, foldl_stepImg]

/-- The warnings of a page, image by image. -/
theorem processImgs_logs (res : Resources) (srcs : List String) :
    (processImgs res srcs).logs = (srcs.map (imgLog res)).flatten := by
  simp [processImgs, foldl_stepImg]

/-- C1: in `process_entries`, every `img` whose `src` ends in ".heic" under
case-insensitive comparison has its src rewritten by replacing the
5-character suffix with ".png", and every `img` whose src does not so end
keeps its src unchanged. -/
theorem C1_img_src_rewrite (res : Resources) (srcs : List String) :
    (processImgs res srcs).newSrcs =
      srcs.map fun src =>
        if isHeicSrc src then strDropRight src 5 ++ ".png" else src := by
  rw [processImgs_newSrcs]
  simp [rewriteSrc]

/-- A quote-substituted string holds no double-quote character. -/
theorem replaceQuote_no_quote (s : String) : '"' ∉ (replaceQuote s).data := by
  intro hmem
  have hmem' : '"' ∈ s.data.map (fun c => if c = '"' then '\'' else c) := hmem
  rcases List.mem_map.mp hmem' with ⟨c, -, hc⟩
  by_cases h : c = '"'
  · rw [if_pos h] at hc
    exact absurd hc (by decide)
  · rw [if_neg h] at hc
    exact h hc

/-- C5: in both the per-entry and the index map synthesis, the popup string
interpolated into the generated markup contains no double-quote character:
every double quote of the place-name/city text was replaced by a single
quote before interpolation. -/
theorem C5_popup_no_double_quote :
    (∀ v : Visit, '"' ∉ (entryPopup v).data) ∧
    (∀ tv : TaggedVisit, '"' ∉ (indexPopup tv).data) :=
  ⟨fun _ => replaceQuote_no_quote _, fun _ => replaceQuote_no_quote _⟩

/-- C2 counterexample: for the image reference `a.HEIC` - which qualifies
under the case-insensitive suffix check - the code does not look up the
same-basename sidecar `a.json`: `replace(".heic", ".json")` is
case-sensitive, so the lookup name stays `a.HEIC` and the parsed `a.json`
sidecar contributes nothing, against the claim. -/
theorem C2_cex_sidecar_lookup :
    isHeicSrc "a.HEIC" = true ∧
    specSidecarName "a.HEIC" = "a.json" ∧
    resA "a.json" = SidecarFile.parsed [vCafe] ∧
    jsonNameOf "a.HEIC" = "a.HEIC" ∧
    resA (jsonNameOf "a.HEIC") = SidecarFile.absent ∧
    (processImgs resA ["a.HEIC"]).visits = [] := by
  decide

/-- C2 as amended: for every image whose src ends in ".heic"
case-insensitively, the looked-up file is the basename with every occurrence
of the exact lowercase ".heic" replaced by ".json" (which is the
same-basename sidecar precisely when the basename's one ".heic" occurrence
is its lowercase suffix); when that file exists and parses, all of its
visits are accumulated, in the order images were encountered and then in
sidecar order. -/
theorem C2_sidecar_lookup_amended (res : Resources) (srcs : List String) :
    (processImgs res srcs).visits =
      (srcs.map fun src =>
        if isHeicSrc src then
          match res (pyReplace (basenameOf src) ".heic" ".json") with
          | .parsed vs => vs
          | _ => []
        else []).flatten := by
  rw [processImgs_visits]
  congr 1

/-- Two resource maps that differ only in that some files turn from
malformed to absent yield the same per-image visits. -/
theorem imgVisits_resAbsentAt (res : Resources) (n : String) (msg : String)
    (hres : res n = SidecarFile.malformed msg) (src : String) :
    imgVisits (resAbsentAt res n) src = imgVisits res src := by
  simp only [imgVisits, resAbsentAt]
  by_cases h : isHeicSrc src
  · simp only [h, if_true]
    by_cases he : jsonNameOf src = n
    · rw [if_pos he, he, hres]
    · rw [if_neg he]
  · simp [h]

/-- C7: an unparseable sidecar is caught and logged with the offending file
name, contributes zero visit records (the page's visits equal those with
that sidecar absent), and the page is still fully processed - its srcs all
rewritten - and written back. -/
theorem C7_malformed_sidecar_recovery (res : Resources) (stem : String)
    (srcs : List String) (src0 msg : String)
    (hmem : src0 ∈ srcs) (hheic : isHeicSrc src0 = true)
    (hmal : res (jsonNameOf src0) = SidecarFile.malformed msg) :
    ∃ r : EntryResult,
      processEntry res stem true srcs = Except.ok r ∧
      r.written = true ∧
      warnEntry (jsonNameOf src0) msg ∈ r.logs ∧
      r.visits = (processImgs (resAbsentAt res (jsonNameOf src0)) srcs).visits ∧
      r.newSrcs = srcs.map rewriteSrc := by
  refine ⟨_, rfl, rfl, ?_, ?_, processImgs_newSrcs res srcs⟩
  · show warnEntry (jsonNameOf src0) msg ∈ (processImgs res srcs).logs
    rw [processImgs_logs]
    refine List.mem_flatten.mpr ⟨imgLog res src0, List.mem_map_of_mem _ hmem, ?_⟩
    simp [imgLog, hheic, hmal]
  · show (processImgs res srcs).visits
        = (processImgs (resAbsentAt res (jsonNameOf src0)) srcs).visits
    rw [processImgs_visits, processImgs_visits]
    congr 1
    exact (List.map_congr_left fun src _ =>
      (imgVisits_resAbsentAt res (jsonNameOf src0) msg hmal src).symm)

/-- Witness for C7: the malformed sidecar `m.json` of the one-image page
`["m.heic"]` is logged, the page is written, and the visits match the
absent-sidecar run. -/
theorem C7_malformed_sidecar_recovery_witness :
    ∃ r : EntryResult,
      processEntry resMal "e" true ["m.heic"] = Except.ok r ∧
      r.written = true ∧
      warnEntry (jsonNameOf "m.heic") "boom" ∈ r.logs ∧
      r.visits = (processImgs (resAbsentAt resMal (jsonNameOf "m.heic")) ["m.heic"]).visits ∧
      r.newSrcs = ["m.heic"].map rewriteSrc :=
  C7_malformed_sidecar_recovery resMal "e" ["m.heic"] "m.heic" "boom"
    (by decide) (by decide) (by decide)

/-- C6: a page whose accumulated visit list is empty gets no per-entry map
block appended at all, and an index aggregation that collects zero visit
records returns without synthesizing a map or modifying `index.html`. -/
theorem C6_empty_visits_no_map (res : Resources) (stem : String)
    (srcs : List String) (entries : List (String × List String))
    (h1 : (processImgs res srcs).visits = [])
    (h2 : (indexRun res entries).allVisits = []) :
    (∃ r : EntryResult,
        processEntry res stem true srcs = Except.ok r ∧ r.appendedMap = none) ∧
    updateIndexResult res entries = none := by
  constructor
  · exact ⟨_, rfl, by simp [processEntry, h1]⟩
  · simp [updateIndexResult, h2]

/-- Witness for C6: a page with one non-matching image and an empty entry
list produce no map block and no index map. -/
theorem C6_empty_visits_no_map_witness :
    (∃ r : EntryResult,
        processEntry resNone "e" true ["b.jpg"] = Except.ok r ∧ r.appendedMap = none) ∧
    updateIndexResult resNone [] = none :=
  C6_empty_visits_no_map resNone "e" ["b.jpg"] [] (by decide) (by decide)

/-- The marker/bounds loop from an arbitrary pair of accumulators. -/
theorem entryMapLists_go (vs : List Visit) (a b : List String) :
    vs.foldl (fun acc v => (acc.1 ++ [markerLine v], acc.2 ++ [boundLine v])) (a, b)
      = (a ++ vs.map markerLine, b ++ vs.map boundLine) := by
  induction vs generalizing a b with
  | nil => simp
  | cons v t ih => simp [ih]

/-- `markers_js` and `bounds_js` are exactly one line per visit, in order. -/
theorem entryMapLists_eq (vs : List Visit) :
    entryMapLists vs = (vs.map markerLine, vs.map boundLine) := by
  simp [entryMapLists, entryMapLists_go]

/-- C4: a page whose accumulated visit list is non-empty gets the map block
appended, with exactly one marker statement per visit record at that
record's coordinates in accumulation order, a bounds list of exactly those
coordinate pairs, and the bounds-fit call computed from that bounds list. -/
theorem C4_entry_map_markers (res : Resources) (stem : String)
    (srcs : List String) (r : EntryResult)
    (hok : processEntry res stem true srcs = Except.ok r)
    (hne : r.visits ≠ []) :
    r.appendedMap = some (entryMapHtml ("map_" ++ stem) r.visits) ∧
    (entryMapLists r.visits).1.length = r.visits.length ∧
    (entryMapLists r.visits).2.length = r.visits.length ∧
    (∀ i (h : i < r.visits.length),
        (entryMapLists r.visits).1.get? i = some (markerLine (r.visits.get ⟨i, h⟩)) ∧
        (entryMapLists r.visits).2.get? i = some (boundLine (r.visits.get ⟨i, h⟩))) ∧
    (∃ pre post : String,
        entryMapHtml ("map_" ++ stem) r.visits =
          pre ++ ("var bounds = L.latLngBounds(["
            ++ String.intercalate "," (r.visits.map boundLine)
            ++ "]);\nmap.fitBounds(bounds);") ++ post) := by
  have hr : r = { newSrcs := (processImgs res srcs).newSrcs
                  visits := (processImgs res srcs).visits
                  appendedMap :=
                    if (processImgs res srcs).visits.isEmpty then none
                    else some (entryMapHtml ("map_" ++ stem) (processImgs res srcs).visits)
                  logs := (processImgs res srcs).logs
                  written := true } := by
    have := hok
    simp only [processEntry, if_true] at this
    exact (Except.ok.inj this).symm
  refine ⟨?_, ?_, ?_, ?_, ?_⟩
  · rw [hr]
    have hvis : r.visits = (processImgs res srcs).visits := by rw [hr]
    rw [hvis] at hne
    simp [List.isEmpty_iff, hne]
  · rw [entryMapLists_eq]
    simp
  · rw [entryMapLists_eq]
    simp
  · intro i h
    rw [entryMapLists_eq]
    constructor
    · rw [List.get?_eq_getElem?, List.getElem?_map, List.getElem?_eq_getElem h]
      rfl
    · rw [List.get?_eq_getElem?, List.getElem?_map, List.getElem?_eq_getElem h]
      rfl
  · refine ⟨entryMapHtmlPre ("map_" ++ stem),
      "\n\n" ++ String.join (r.visits.map markerLine) ++ "\n</script>\n", ?_⟩
    simp only [entryMapHtml, entryMapLists_eq]

/-- Witness for C4: the one-visit page `["a.heic"]` with sidecar `a.json`
yields the appended map block with its one marker. -/
theorem C4_entry_map_markers_witness :
    entryResA.appendedMap = some (entryMapHtml ("map_" ++ "e") entryResA.visits) ∧
    (entryMapLists entryResA.visits).1.length = entryResA.visits.length ∧
    (entryMapLists entryResA.visits).2.length = entryResA.visits.length ∧
    (∀ i (h : i < entryResA.visits.length),
        (entryMapLists entryResA.visits).1.get? i
          = some (markerLine (entryResA.visits.get ⟨i, h⟩)) ∧
        (entryMapLists entryResA.visits).2.get? i
          = some (boundLine (entryResA.visits.get ⟨i, h⟩))) ∧
    (∃ pre post : String,
        entryMapHtml ("map_" ++ "e") entryResA.visits =
          pre ++ ("var bounds = L.latLngBounds(["
            ++ String.intercalate "," (entryResA.visits.map boundLine)
            ++ "]);\nmap.fitBounds(bounds);") ++ post) :=
  C4_entry_map_markers resA "e" ["a.heic"] entryResA (by rfl) (by decide)

/-- One transcoding step never alters an existing file: when the PNG exists
the step is the identity, and otherwise it writes only at the (previously
absent) PNG path. -/
theorem convertStep_preserves (conv : String → String) (fs : FS) (h : String)
    (p : String) (c : String) (hc : fs p = some c) :
    convertStep conv fs h p = some c := by
  unfold convertStep
  by_cases hex : (fs (pngNameOf h)).isSome
  · rw [if_pos hex]
    exact hc
  · rw [if_neg hex]
    by_cases hp : p = pngNameOf h
    · rw [← hp, hc] at hex
      simp at hex
    · simp only [if_neg hp]
      exact hc

/-- The whole transcoding run preserves every existing file. -/
theorem convertRun_preserves (conv : String → String) (p : String) (c : String) :
    ∀ (heics : List String) (fs : FS), fs p = some c →
      convertRun conv fs heics p = some c
  | [], _, hc => hc
  | hd :: t, fs, hc =>
      convertRun_preserves conv p c t (convertStep conv fs hd)
        (convertStep_preserves conv fs hd p c hc)

/-- C8: a source image whose same-basename PNG already exists is skipped on
existence alone - re-running the transcoding stage never touches any
existing output, regardless of any file's content or of what the conversion
computes. -/
theorem C8_transcode_skip_existing (conv : String → String) (fs : FS)
    (heics : List String) (p : String) (c : String) (hc : fs p = some c) :
    convertRun conv fs heics p = some c :=
  convertRun_preserves conv p c heics fs hc

/-- Witness for C8: with `a.png` already present, the run leaves it as it
was. -/
theorem C8_transcode_skip_existing_witness :
    convertRun (fun c => c) fsW ["a.heic"] "a.png" = some "PNGDATA" :=
  C8_transcode_skip_existing (fun c => c) fsW ["a.heic"] "a.png" "PNGDATA" (by decide)

/-- C9 counterexample: with two red markers, toggling "red" twice restores
all markers, but the view is then re-fitted to the padded bounds of the
marker group, not to the original unpadded `bounds_all` fit; and toggling a
day with no markers hides everything and issues no re-fit at all. -/
theorem C9_cex_toggle_restore :
    (toggleMarkers "red" (toggleMarkers "red" (initMapState [mRed1, mRed2]))).visible
        = [mRed1, mRed2] ∧
    (initMapState [mRed1, mRed2]).lastFit
        = FitCall.initialFit [("10", "20"), ("30", "40")] ∧
    (toggleMarkers "red" (toggleMarkers "red" (initMapState [mRed1, mRed2]))).lastFit
        = FitCall.paddedFit [("10", "20"), ("30", "40")] ∧
    (toggleMarkers "red" (toggleMarkers "red" (initMapState [mRed1, mRed2]))).lastFit
        ≠ (initMapState [mRed1, mRed2]).lastFit ∧
    (toggleMarkers "blue" (initMapState [mRed1, mRed2])).visible = [] ∧
    (toggleMarkers "blue" (initMapState [mRed1, mRed2])).lastFit
        = (initMapState [mRed1, mRed2]).lastFit := by
  decide

/-- C9 as amended: from the freshly loaded map, clicking a day keeps exactly
the markers tagged with that day's color and, when at least one marker
remains visible, re-fits the view to the visible markers' bounds padded by
ratio 0.1 (no re-fit when none remain); clicking the same day again
restores all markers and, when any markers exist, re-fits to the padded
bounds of the full marker set - which spans the same coordinates as the
original full bounds but is not the original unpadded fit. -/
theorem C9_toggle_filter_amended (ms : List Marker) (c : String) :
    (toggleMarkers c (initMapState ms)).visible
        = ms.filter (fun m => m.dayColor == c) ∧
    (toggleMarkers c (initMapState ms)).activeColor = some c ∧
    (toggleMarkers c (initMapState ms)).lastFit
        = (if (ms.filter (fun m => m.dayColor == c)).isEmpty
           then (initMapState ms).lastFit
           else FitCall.paddedFit (coordsOf (ms.filter (fun m => m.dayColor == c)))) ∧
    (toggleMarkers c (toggleMarkers c (initMapState ms))).visible = ms ∧
    (toggleMarkers c (toggleMarkers c (initMapState ms))).activeColor = none ∧
    (toggleMarkers c (toggleMarkers c (initMapState ms))).lastFit
        = (if ms.isEmpty then (toggleMarkers c (initMapState ms)).lastFit
           else FitCall.paddedFit (coordsOf ms)) ∧
    (ms = [] ∨ (toggleMarkers c (toggleMarkers c (initMapState ms))).lastFit
        ≠ FitCall.initialFit (coordsOf ms)) := by
  refine ⟨?_, ?_, ?_, ?_, ?_, ?_, ?_⟩
  · simp [toggleMarkers, initMapState]
  · simp [toggleMarkers, initMapState]
  · simp [toggleMarkers, initMapState]
  · simp [toggleMarkers, initMapState]
  · simp [toggleMarkers, initMapState]
  · simp [toggleMarkers, initMapState]
  · cases hms : ms with
    | nil => exact Or.inl rfl
    | cons m t =>
        refine Or.inr ?_
        simp [toggleMarkers, initMapState]

/-- C10: across any sequence of runs of the two styling passes, the
viewport meta tag is inserted only when none is present - so at most one
insertion ever happens and a document that started without one ends with
exactly one - while a style block is appended unconditionally on every
run. -/
theorem C10_viewport_insert_once (ops : List BeautifyOp) (d : HtmlDoc) :
    (ops.foldl runBeautify d).styleCount = d.styleCount + ops.length ∧
    (ops.foldl runBeautify d).viewportCount =
      (if d.viewportCount = 0 ∧ ops ≠ [] then 1 else d.viewportCount) := by
  induction ops generalizing d with
  | nil => simp
  | cons op t ih =>
      have hstep : (runBeautify d op).styleCount = d.styleCount + 1 ∧
          (runBeautify d op).viewportCount =
            (if d.viewportCount = 0 then 1 else d.viewportCount) := by
        cases op <;> by_cases h : d.viewportCount = 0 <;>
          simp [runBeautify, beautifyIndexDoc, beautifyEntriesDoc,
            addResponsiveViewport, h]
      rcases ih (runBeautify d op) with ⟨ihs, ihv⟩
      constructor
      · rw [List.foldl_cons, ihs, hstep.1]
        simp only [List.length_cons]
        omega
      · rw [List.foldl_cons, ihv, hstep.2]
        by_cases h : d.viewportCount = 0
        · simp [h]
        · simp [h]

/-- A key bound in the left part of an association list keeps its value
under appending. -/
theorem lookup_append_some {l₁ l₂ : List (String × String)} {d : String} {c : String}
    (h : l₁.lookup d = some c) : (l₁ ++ l₂).lookup d = some c := by
  induction l₁ with
  | nil => simp [List.lookup] at h
  | cons p t ih =>
      rcases p with ⟨k, v⟩
      by_cases hk : d = k
      · subst hk
        simp only [List.cons_append, List.lookup_cons, beq_self_eq_true] at h ⊢
        exact h
      · have hb : (d == k) = false := beq_eq_false_iff_ne.mpr hk
        simp only [List.cons_append, List.lookup_cons, hb] at h ⊢
        exact ih h

/-- A key absent from the left part of an association list is looked up in
the right part. -/
theorem lookup_append_none {l₁ l₂ : List (String × String)} {d : String}
    (h : l₁.lookup d = none) : (l₁ ++ l₂).lookup d = l₂.lookup d := by
  induction l₁ with
  | nil => rfl
  | cons p t ih =>
      rcases p with ⟨k, v⟩
      by_cases hk : d = k
      · subst hk
        simp only [List.lookup_cons, beq_self_eq_true] at h
        exact Option.noConfusion h
      · have hb : (d == k) = false := beq_eq_false_iff_ne.mpr hk
        simp only [List.cons_append, List.lookup_cons, hb] at h ⊢
        exact ih h

/-- The canonical `date_to_color` list is as long as its date list. -/
theorem mkAssocFrom_length (dl : List String) : ∀ i, (mkAssocFrom i dl).length = dl.length := by
  induction dl with
  | nil => intro i; rfl
  | cons a t ih => intro i; simp [mkAssocFrom, ih]

/-- Appending one date to the canonical `date_to_color` list draws the next
palette entry. -/
theorem mkAssocFrom_append (dl : List String) (d : String) : ∀ i,
    mkAssocFrom i (dl ++ [d]) = mkAssocFrom i dl ++ [(d, palette (i + dl.length))] := by
  induction dl with
  | nil => intro i; simp [mkAssocFrom]
  | cons a t ih =>
      intro i
      have h1 : mkAssocFrom i ((a :: t) ++ [d]) = (a, palette i) :: mkAssocFrom (i + 1) (t ++ [d]) := rfl
      rw [h1, ih (i + 1)]
      have h2 : i + 1 + t.length = i + (t.length + 1) := by omega
      rw [h2]
      rfl

/-- A date not in the date list is absent from the canonical
`date_to_color` list. -/
theorem lookup_mkAssocFrom_none {d : String} :
    ∀ (dl : List String) (i : Nat), d ∉ dl → (mkAssocFrom i dl).lookup d = none
  | [], _, _ => rfl
  | a :: t, i, h => by
      have hne : d ≠ a := fun he => h (he ▸ List.mem_cons_self a t)
      have hb : (d == a) = false := beq_eq_false_iff_ne.mpr hne
      simp only [mkAssocFrom, List.lookup_cons, hb]
      exact lookup_mkAssocFrom_none t (i + 1) fun hm => h (List.mem_cons_of_mem a hm)

/-- A date of the date list is present in the canonical `date_to_color`
list. -/
theorem lookup_mkAssocFrom_isSome {d : String} :
    ∀ (dl : List String) (i : Nat), d ∈ dl → ((mkAssocFrom i dl).lookup d).isSome = true
  | [], _, h => absurd h (List.not_mem_nil d)
  | a :: t, i, h => by
      by_cases he : d = a
      · subst he
        simp [mkAssocFrom, List.lookup_cons]
      · have hb : (d == a) = false := beq_eq_false_iff_ne.mpr he
        have hm : d ∈ t := by
          rcases List.mem_cons.mp h with h' | h'
          · exact absurd h' he
          · exact h'
        simp only [mkAssocFrom, List.lookup_cons, hb]
        exact lookup_mkAssocFrom_isSome t (i + 1) hm

/-- A date found in the canonical `date_to_color` list is in the date
list. -/
theorem mem_of_lookup_mkAssocFrom {d : String} {dl : List String} {i : Nat} {c : String}
    (h : (mkAssocFrom i dl).lookup d = some c) : d ∈ dl := by
  by_contra hn
  rw [lookup_mkAssocFrom_none dl i hn] at h
  exact Option.noConfusion h

/-- Looking up the j-th date of a duplicate-free date list in the canonical
`date_to_color` list yields the j-th palette entry. -/
theorem lookup_mkAssocFrom_get :
    ∀ (dl : List String), dl.Nodup → ∀ (i j : Nat) (hj : j < dl.length),
      (mkAssocFrom i dl).lookup (dl.get ⟨j, hj⟩) = some (palette (i + j))
  | [], _, _, j, hj => absurd hj (by simp)
  | a :: t, _, i, 0, _ => by
      simp [mkAssocFrom, List.lookup_cons, List.get]
  | a :: t, hnd, i, j + 1, hj => by
      have ha : a ∉ t := (List.nodup_cons.mp hnd).1
      have hj' : j < t.length := by simpa using hj
      have hne : t.get ⟨j, hj'⟩ ≠ a := fun he => ha (he ▸ List.get_mem t j hj')
      have hb : (t.get ⟨j, hj'⟩ == a) = false := beq_eq_false_iff_ne.mpr hne
      have hget : (a :: t).get ⟨j + 1, hj⟩ = t.get ⟨j, hj'⟩ := rfl
      rw [hget]
      simp only [mkAssocFrom, List.lookup_cons, hb]
      rw [lookup_mkAssocFrom_get t (List.nodup_cons.mp hnd).2 (i + 1) j hj']
      have h : i + 1 + j = i + (j + 1) := by omega
      rw [h]

/-- Every tagged visit one index image iteration adds carries the entry's
color and date. -/
theorem indexImgStep_mem {res : Resources} {color date : String}
    {acc : List TaggedVisit} {src : String} {tv : TaggedVisit}
    (h : tv ∈ indexImgStep res color date acc src) :
    tv ∈ acc ∨ (tv.color = color ∧ tv.date = date) := by
  unfold indexImgStep at h
  by_cases hp : isPngSrc src
  · rw [if_pos hp] at h
    cases hres : res (indexJsonNameOf src) with
    | absent => rw [hres] at h; exact Or.inl h
    | malformed m => rw [hres] at h; exact Or.inl h
    | parsed vs =>
        rw [hres] at h
        rcases List.mem_append.mp h with h' | h'
        · exact Or.inl h'
        · rcases List.mem_map.mp h' with ⟨v, -, hv⟩
          refine Or.inr ⟨?_, ?_⟩ <;> rw [← hv]
  · rw [if_neg hp] at h
    exact Or.inl h

/-- Every tagged visit an entry's whole image loop adds carries the entry's
color and date. -/
theorem indexImgFold_mem {res : Resources} {color date : String} :
    ∀ (srcs : List String) (acc : List TaggedVisit) (tv : TaggedVisit),
      tv ∈ srcs.foldl (indexImgStep res color date) acc →
      tv ∈ acc ∨ (tv.color = color ∧ tv.date = date)
  | [], _, _, h => Or.inl h
  | src :: t, acc, tv, h => by
      rcases indexImgFold_mem t _ tv h with h' | h'
      · exact indexImgStep_mem h'
      · exact Or.inr h'

/-- `indexStep` when the entry's date prefix already has a color: the
dictionary and date list are unchanged and the visits are tagged with the
stored color. -/
theorem indexStep_lookup_some {res : Resources} {s : IState}
    {e : String × List String} {c : String}
    (hl : s.dateToColor.lookup (datePrefix e.1) = some c) :
    indexStep res s e =
      ⟨s.dateToColor, s.dateList,
        e.2.foldl (indexImgStep res c (datePrefix e.1)) s.allVisits⟩ := by
  unfold indexStep
  simp only [hl, Option.getD_some]

/-- `indexStep` on a first-seen date prefix: the date draws the next palette
entry, is appended to the dictionary and the date list, and the visits are
tagged with the color the updated dictionary stores for it. -/
theorem indexStep_lookup_none {res : Resources} {s : IState}
    {e : String × List String}
    (hl : s.dateToColor.lookup (datePrefix e.1) = none) :
    indexStep res s e =
      ⟨s.dateToColor ++ [(datePrefix e.1, palette s.dateToColor.length)],
        s.dateList ++ [datePrefix e.1],
        e.2.foldl
          (indexImgStep res
            (((s.dateToColor
                ++ [(datePrefix e.1, palette s.dateToColor.length)]).lookup
                  (datePrefix e.1)).getD "red")
            (datePrefix e.1)) s.allVisits⟩ := by
  unfold indexStep palette
  simp only [hl]

/-- One entry iteration of the index pass preserves the loop invariant: the
dictionary is the canonical palette assignment over the duplicate-free date
list, and every tagged visit's color is the one stored for its date. -/
theorem indexStep_inv (res : Resources) (s : IState) (e : String × List String)
    (h1 : s.dateToColor = mkAssocFrom 0 s.dateList)
    (h2 : s.dateList.Nodup)
    (h3 : ∀ tv ∈ s.allVisits, s.dateToColor.lookup tv.date = some tv.color) :
    (indexStep res s e).dateToColor = mkAssocFrom 0 (indexStep res s e).dateList ∧
    (indexStep res s e).dateList.Nodup ∧
    (∀ tv ∈ (indexStep res s e).allVisits,
        (indexStep res s e).dateToColor.lookup tv.date = some tv.color) ∧
    (indexStep res s e).dateList =
      (if s.dateList.contains (datePrefix e.1) then s.dateList
       else s.dateList ++ [datePrefix e.1]) := by
  cases hl : s.dateToColor.lookup (datePrefix e.1) with
  | some c =>
      have hmem : datePrefix e.1 ∈ s.dateList := mem_of_lookup_mkAssocFrom (h1 ▸ hl)
      have hcont : s.dateList.contains (datePrefix e.1) = true := List.elem_iff.mpr hmem
      rw [indexStep_lookup_some hl]
      refine ⟨h1, h2, ?_, by rw [hcont, if_pos rfl]⟩
      intro tv htv
      rcases indexImgFold_mem e.2 s.allVisits tv htv with h' | ⟨hc, hd⟩
      · exact h3 tv h'
      · rw [hd, hc]
        exact hl
  | none =>
      have hnmem : datePrefix e.1 ∉ s.dateList := by
        intro hm
        have hs := lookup_mkAssocFrom_isSome s.dateList 0 hm
        rw [← h1, hl] at hs
        simp at hs
      have hcont : s.dateList.contains (datePrefix e.1) = false :=
        Bool.eq_false_iff.mpr fun hc => hnmem (List.elem_iff.mp hc)
      have hlen : s.dateToColor.length = s.dateList.length := by
        rw [h1, mkAssocFrom_length]
      have hlook :
          (s.dateToColor ++ [(datePrefix e.1, palette s.dateToColor.length)]).lookup
              (datePrefix e.1)
            = some (palette s.dateToColor.length) := by
        rw [lookup_append_none hl]
        simp [List.lookup_cons]
      rw [indexStep_lookup_none hl]
      refine ⟨?_, ?_, ?_, by rw [hcont]; simp⟩
      · show s.dateToColor ++ [(datePrefix e.1, palette s.dateToColor.length)]
            = mkAssocFrom 0 (s.dateList ++ [datePrefix e.1])
        rw [h1, mkAssocFrom_append, mkAssocFrom_length, Nat.zero_add]
      · refine List.Nodup.append h2 (List.nodup_singleton _) ?_
        intro x hx hx2
        rw [List.mem_singleton] at hx2
        exact hnmem (hx2 ▸ hx)
      · intro tv htv
        rcases indexImgFold_mem e.2 s.allVisits tv htv with h' | ⟨hc, hd⟩
        · exact lookup_append_some (h3 tv h')
        · rw [hd, hc, hlook]
          rfl

/-- The index pass's entry loop preserves the invariant from any starting
state, and its date list is the first-seen fold of the date prefixes. -/
theorem indexFold_inv (res : Resources) :
    ∀ (entries : List (String × List String)) (s : IState),
      s.dateToColor = mkAssocFrom 0 s.dateList →
      s.dateList.Nodup →
      (∀ tv ∈ s.allVisits, s.dateToColor.lookup tv.date = some tv.color) →
      (entries.foldl (indexStep res) s).dateToColor
          = mkAssocFrom 0 (entries.foldl (indexStep res) s).dateList ∧
      (entries.foldl (indexStep res) s).dateList.Nodup ∧
      (∀ tv ∈ (entries.foldl (indexStep res) s).allVisits,
          (entries.foldl (indexStep res) s).dateToColor.lookup tv.date = some tv.color) ∧
      (entries.foldl (indexStep res) s).dateList
        = (entries.map fun e => datePrefix e.1).foldl
            (fun acc d => if acc.contains d then acc else acc ++ [d]) s.dateList
  | [], s, h1, h2, h3 => ⟨h1, h2, h3, rfl⟩
  | e :: t, s, h1, h2, h3 => by
      rcases indexStep_inv res s e h1 h2 h3 with ⟨g1, g2, g3, g4⟩
      rcases indexFold_inv res t (indexStep res s e) g1 g2 g3 with ⟨f1, f2, f3, f4⟩
      refine ⟨f1, f2, f3, ?_⟩
      simp only [List.foldl_cons, List.map_cons]
      rw [f4, g4]

/-- C3: with entry files visited in order, the Nth distinct date prefix is
assigned `colors[(N-1) mod 15]` from the fixed 15-color palette, every
entry sharing an already-seen date prefix reuses that prefix's color (each
tagged visit's color is the one the final dictionary stores for its date),
and the assignment is a deterministic function of the traversal. -/
theorem C3_day_color_assignment (res : Resources) (entries : List (String × List String)) :
    (indexRun res entries).dateList = firstSeen (entries.map fun e => datePrefix e.1) ∧
    (indexRun res entries).dateList.Nodup ∧
    (∀ i (h : i < (indexRun res entries).dateList.length),
        (indexRun res entries).dateToColor.lookup
            ((indexRun res entries).dateList.get ⟨i, h⟩)
          = some (colors.getD (i % 15) "red")) ∧
    (∀ tv ∈ (indexRun res entries).allVisits,
        (indexRun res entries).dateToColor.lookup tv.date = some tv.color) := by
  unfold indexRun
  rcases indexFold_inv res entries ⟨[], [], []⟩ rfl List.nodup_nil
      (by intro tv h; simp at h) with ⟨f1, f2, f3, f4⟩
  refine ⟨f4, f2, ?_, f3⟩
  intro i h
  rw [f1, lookup_mkAssocFrom_get _ f2 0 i h]
  have hp : palette (0 + i) = colors.getD (i % 15) "red" := by
    have hlen : colors.length = 15 := rfl
    rw [palette, hlen, Nat.zero_add]
  rw [hp]

end ConvertJournal
